import Mathlib

/-!
Verification development for the Super30 text-processing service (app.py).

The embedding models the pure core of the program:
* `remove_emojis_and_special_chars` (the sanitizer) over an abstract
  character classification `CharModel` (Unicode symbol categories, the
  regex classes for word and whitespace characters);
* `summarize_text` over an abstract `SummarizerModel` standing for the
  external sumy LSA summarizer (returning `none` models the library
  raising an exception);
* `process_text` assembling the per-text record;
* the batch paths `process_json_file` (CLI/file path, lines 68-125,
  modelled on the parsed JSON value because file IO is outside the
  embedding) and the `/process-json` handler `process_json_data`
  (lines 190-244), over a JSON-like value type `JVal` standing for the
  dynamically typed Python values.

Python exceptions that escape to the outer handlers (TypeError from
`'description' in item` on a number, `item['description']` on a list,
processing a non-string description through `unicodedata.category`)
are modelled as `PErr.internal`; the explicit 400 / ValueError branch is
`PErr.validation`.
-/

/-- JSON-like value, standing for the dynamically typed Python values the
handlers receive after `json.load` / `request.get_json`. -/
inductive JVal where
  | null
  | bool (b : Bool)
  | num (n : Int)
  | str (s : String)
  | arr (xs : List JVal)
  | obj (fields : List (String × JVal))


/-- Dictionary key lookup, `d[k]` / `d.get(k)` on a parsed-JSON dict
(keys are unique after parsing, so first match suffices). -/
def lookupField : List (String × JVal) → String → Option JVal
  | [], _ => none
  | (k, v) :: rest, key => if k = key then some v else lookupField rest key

/-- Python truthiness of a parsed-JSON value (`if not data`). -/
def truthy : JVal → Bool
  | .null => false
  | .bool b => b
  | .num n => n ≠ 0
  | .str s => s ≠ ""
  | .arr xs => !xs.isEmpty
  | .obj fs => !fs.isEmpty

/-- `sub` occurs as a contiguous prefix of `l`. -/
def listPrefixOf : List Char → List Char → Bool
  | [], _ => true
  | _ :: _, [] => false
  | a :: as, b :: bs => a = b && listPrefixOf as bs

/-- `sub` occurs contiguously somewhere in `l` (Python `sub in s` on strings). -/
def listInfixOf : List Char → List Char → Bool
  | sub, [] => listPrefixOf sub []
  | sub, b :: rest => listPrefixOf sub (b :: rest) || listInfixOf sub rest

/-- Python membership `key in item` for the non-dict values a batch element
can be: substring test on strings, element test on lists, `TypeError`
(modelled as `.error ()`) on numbers, booleans and null. -/
def pyContainsKey (key : String) : JVal → Except Unit Bool
  | .str s => .ok (listInfixOf key.data s.data)
  | .arr xs => .ok (xs.any fun x => match x with | .str t => t = key | _ => false)
  | .obj fs => .ok (fs.any fun kv => kv.1 = key)
  | _ => .error ()

/-- Abstract character classification used by the sanitizer: `isSym` is
`unicodedata.category(c) in ['So', 'Sm', 'Sk', 'Sc']`, `isWord` is the
regex class `\w`, `isSpace` the regex class `\s` (which also covers the
characters removed by `str.strip()`). -/
structure CharModel where
  isSym : Char → Bool
  isWord : Char → Bool
  isSpace : Char → Bool

/-- The basic punctuation kept by the sanitizer regex: `.,!?;:-'"()`. -/
def basicPunct : List Char :=
  ['.', ',', '!', '?', ';', ':', '-', Char.ofNat 39, '"', '(', ')']

/-- A character kept by the second sanitizer step
(`re.sub(r'[^\w\s.,!?;:\-\x27"()]', '', text)` keeps exactly these). -/
def keptChar (M : CharModel) (c : Char) : Bool :=
  M.isWord c || M.isSpace c || basicPunct.contains c

/-- Whitespace collapsing, `re.sub(r'\s+', ' ', text)`: every maximal run
of whitespace characters becomes a single space.  The flag records whether
the previous character belonged to a whitespace run. -/
def collapseAux (M : CharModel) : Bool → List Char → List Char
  | _, [] => []
  | prevSpace, c :: cs =>
    if M.isSpace c then
      if prevSpace then collapseAux M true cs
      else ' ' :: collapseAux M true cs
    else c :: collapseAux M false cs

/-- `.strip()`: drop leading and trailing whitespace characters. -/
def stripChars (M : CharModel) (l : List Char) : List Char :=
  ((l.dropWhile M.isSpace).reverse.dropWhile M.isSpace).reverse

/-- `TextProcessor.remove_emojis_and_special_chars` (app.py lines 21-32):
drop Unicode symbol-category characters, drop everything that is not a
word character, whitespace or basic punctuation, collapse whitespace runs
to single spaces and trim. -/
def remove_emojis_and_special_chars (M : CharModel) (text : String) : String :=
  let s1 := text.data.filter fun c => !M.isSym c
  let s2 := s1.filter (keptChar M)
  String.mk (stripChars M (collapseAux M false s2))

/-- Abstract model of the external sumy LSA summarizer invocation
(parse + `self.summarizer(parser.document, sentences_count)` + join):
`none` models the library raising an exception.  The count argument is a
`JVal` because the handlers pass the raw request value through. -/
structure SummarizerModel where
  run : String → JVal → Option String

/-- `TextProcessor.summarize_text` (app.py lines 34-49): try the LSA
summarizer; on any exception return the first 200 characters followed by
an ellipsis when the text is longer than 200 characters, else the text. -/
def summarize_text (S : SummarizerModel) (text : String) (sentencesCount : JVal) : String :=
  match S.run text sentencesCount with
  | some summary => summary
  | none => if text.length > 200 then text.take 200 ++ "..." else text

/-- The record built by `TextProcessor.process_text` (app.py lines 59-66). -/
structure ProcessedText where
  original_text : String
  cleaned_text : String
  summary : String
  character_count_original : Nat
  character_count_cleaned : Nat
  character_count_summary : Nat


/-- `TextProcessor.process_text` (app.py lines 51-66). -/
def process_text (M : CharModel) (S : SummarizerModel)
    (text : String) (sentencesCount : JVal) : ProcessedText :=
  let cleaned_text := remove_emojis_and_special_chars M text
  let summary := summarize_text S cleaned_text sentencesCount
  { original_text := text
    cleaned_text := cleaned_text
    summary := summary
    character_count_original := text.length
    character_count_cleaned := cleaned_text.length
    character_count_summary := summary.length }

/-- A processed batch element: the `process_text` record with the `id`
key attached, and (only on the handler list path) the `original_id` key
(`none` models the key being absent from the dict). -/
structure BatchItem where
  item : ProcessedText
  id : JVal
  original_id : Option JVal


/-- The `processing_info` block (app.py lines 98-103 and 229-235);
`sentences_count` is `none` on the file path, which does not emit it. -/
structure ProcessingInfo where
  language : String
  summarization_method : String
  emoji_removal : Bool
  special_char_removal : Bool
  sentences_count : Option JVal


def fileInfo : ProcessingInfo :=
  { language := "english"
    summarization_method := "LSA (Latent Semantic Analysis)"
    emoji_removal := true
    special_char_removal := true
    sentences_count := none }

def handlerInfo (sc : JVal) : ProcessingInfo :=
  { fileInfo with sentences_count := some sc }

/-- The aggregate result of batch processing (`output_data` in
`process_json_file`, `response_data["data"]` in the handler). -/
structure BatchResult where
  processed_items : List BatchItem
  total_items : Nat
  processing_info : ProcessingInfo


/-- How batch processing fails: the explicit 400/ValueError branch
(`validation`), or a Python exception escaping to the outer handler
(`internal`, the 500 path). -/
inductive PErr where
  | validation
  | internal


/-- The item loop of `process_json_file` (app.py lines 81-86): `results`
is the Python `results` accumulator; the id fallback is
`item.get('id', len(results) + 1)`.  A non-dict item goes through
Python `'description' in item` (`pyContainsKey`); a `True` outcome there,
or a non-string description value, makes the later subscripting /
`unicodedata.category` call raise, modelled as `.internal`. -/
def processListFile (M : CharModel) (S : SummarizerModel)
    (acc : List BatchItem) : List JVal → Except PErr (List BatchItem)
  | [] => .ok acc
  | item :: rest =>
    match item with
    | .obj fs =>
      match lookupField fs "description" with
      | some (.str d) =>
        processListFile M S
          (acc ++ [{ item := process_text M S d (.num 3)
                     id := (lookupField fs "id").getD (.num ((acc.length : Int) + 1))
                     original_id := none }]) rest
      | some _ => .error .internal
      | none => processListFile M S acc rest
    | _ =>
      match pyContainsKey "description" item with
      | .ok true => .error .internal
      | .ok false => processListFile M S acc rest
      | .error _ => .error .internal

/-- `process_json_file` (app.py lines 68-115), modelled on the parsed
JSON value: reading and writing the files is IO outside the embedding,
and the `raise ValueError` on line 92 is the `validation` error. -/
def process_json_file (M : CharModel) (S : SummarizerModel)
    (input_data : JVal) : Except PErr BatchResult :=
  match input_data with
  | .arr xs =>
    (processListFile M S [] xs).map fun rs =>
      { processed_items := rs, total_items := rs.length, processing_info := fileInfo }
  | .obj fs =>
    match lookupField fs "description" with
    | some (.str d) =>
      .ok { processed_items :=
              [{ item := process_text M S d (.num 3)
                 id := (lookupField fs "id").getD (.num 1)
                 original_id := none }]
            total_items := 1
            processing_info := fileInfo }
    | some _ => .error .internal
    | none => .error .validation
  | _ => .error .validation

/-- The item loop of the `/process-json` handler (app.py lines 207-213):
`i` is the `enumerate` index, the id fallback is `item.get('id', i + 1)`
and `original_id` is `item.get('id')` (null when absent). -/
def processListHandler (M : CharModel) (S : SummarizerModel)
    (sc : JVal) (i : Nat) : List JVal → Except PErr (List BatchItem)
  | [] => .ok []
  | item :: rest =>
    match item with
    | .obj fs =>
      match lookupField fs "description" with
      | some (.str d) =>
        (processListHandler M S sc (i + 1) rest).map
          ({ item := process_text M S d sc
             id := (lookupField fs "id").getD (.num ((i : Int) + 1))
             original_id := some ((lookupField fs "id").getD .null) } :: ·)
      | some _ => .error .internal
      | none => processListHandler M S sc (i + 1) rest
    | _ =>
      match pyContainsKey "description" item with
      | .ok true => .error .internal
      | .ok false => processListHandler M S sc (i + 1) rest
      | .error _ => .error .internal

/-- The body of the `/process-json` handler after `input_data` and
`sentences_count` are extracted (app.py lines 204-237). -/
def process_json_data_core (M : CharModel) (S : SummarizerModel)
    (input_data sc : JVal) : Except PErr BatchResult :=
  match input_data with
  | .arr xs =>
    (processListHandler M S sc 0 xs).map fun rs =>
      { processed_items := rs, total_items := rs.length, processing_info := handlerInfo sc }
  | .obj fs =>
    match lookupField fs "description" with
    | some (.str d) =>
      .ok { processed_items :=
              [{ item := process_text M S d sc
                 id := (lookupField fs "id").getD (.num 1)
                 original_id := none }]
            total_items := 1
            processing_info := handlerInfo sc }
    | some _ => .error .internal
    | none => .error .validation
  | _ => .error .validation

/-- The observable outcomes of the `/process-json` route: the 400 for a
missing `data` field, the 400 for an invalid input shape, the 500 from
the catch-all handler, and the success envelope. -/
inductive RouteResp where
  | missingField
  | badRequest
  | serverError
  | success (r : BatchResult)


def exceptToResp : Except PErr BatchResult → RouteResp
  | .ok r => .success r
  | .error .validation => .badRequest
  | .error .internal => .serverError

/-- The full `/process-json` handler `process_json_data` (app.py lines
190-244): `if not data or 'data' not in data` yields the missing-field
400 (membership on a truthy number or boolean raises, hence 500);
`input_data = data['data']`, `sentences_count = data.get('sentences_count', 3)`
with no further validation of the count; then the core body. -/
def process_json_data (M : CharModel) (S : SummarizerModel)
    (req : JVal) : RouteResp :=
  if !truthy req then .missingField
  else
    match req with
    | .obj fs =>
      if (lookupField fs "data").isSome then
        exceptToResp (process_json_data_core M S
          ((lookupField fs "data").getD .null)
          ((lookupField fs "sentences_count").getD (.num 3)))
      else .missingField
    | .str s => if listInfixOf "data".data s.data then .serverError else .missingField
    | .arr xs =>
      if xs.any (fun x => match x with | .str t => t = "data" | _ => false)
      then .serverError else .missingField
    | _ => .serverError

/-- The `sentences_count` coercion of the `/process-text` handler
(app.py lines 172-175): `data.get('sentences_count', 3)` followed by
`if not isinstance(sentences_count, int) or sentences_count < 1:
sentences_count = 3` (Python booleans are `int` instances). -/
def coerce_sentences_count (v : JVal) : JVal :=
  match v with
  | .num n => if n < 1 then .num 3 else .num n
  | .bool b => if b then .bool b else .num 3
  | _ => .num 3

/-! ## Concrete model instances

`asciiModel` instantiates the abstract character classification exactly as
`unicodedata.category` and the Python regex classes behave on the ASCII
range: the ASCII symbol-category characters are `$ + < = > ^ | ~` and the
backquote (code points 36, 43, 60-62, 94, 96, 124, 126), `\w` is
alphanumeric or underscore, `\s` is space, tab, newline, carriage return,
vertical tab and form feed.  `failSumm` is the summarizer model in which
the library always raises (e.g. sumy on unparsable input). -/

def asciiModel : CharModel where
  isSym c := ([36, 43, 60, 61, 62, 94, 96, 124, 126] : List UInt32).contains c.val
  isWord c := c.isAlphanum || c = '_'
  isSpace c := c = ' ' || c = Char.ofNat 9 || c = Char.ofNat 10 || c = Char.ofNat 13
      || c = Char.ofNat 11 || c = Char.ofNat 12

def failSumm : SummarizerModel where
  run _ _ := none

/-! ## C3: the summarizer fallback -/

/-- C3: for every string input `text`, `summarize_text` returns a string
(it is a total function into `String`), and whenever the internal
tokenization/summarization step fails (the summarizer model returns
`none`, standing for the library raising), the result is the first 200
characters of `text` followed by `"..."` when `text` is longer than 200
characters, else `text` unchanged. -/
theorem C3_summarize_fallback (S : SummarizerModel) (text : String) (sc : JVal)
    (h : S.run text sc = none) :
    summarize_text S text sc =
      (if text.length > 200 then text.take 200 ++ "..." else text) := by
  unfold summarize_text
  rw [h]

theorem C3_summarize_fallback_witness :
    failSumm.run "hi there" (.num 3) = none ∧
      summarize_text failSumm "hi there" (.num 3) = "hi there" := by
  refine ⟨rfl, ?_⟩
  rw [C3_summarize_fallback failSumm "hi there" (.num 3) rfl]
  rfl

/-! ## C6: the shape of `process_text` -/

/-- C6: `process_text text n` cleans with the sanitizer, summarizes the
cleaned text with the given count, and reports the original text
unchanged together with the character counts of the original, cleaned and
summary strings. -/
theorem C6_process_text_shape (M : CharModel) (S : SummarizerModel)
    (text : String) (sc : JVal) :
    (process_text M S text sc).original_text = text ∧
    (process_text M S text sc).cleaned_text = remove_emojis_and_special_chars M text ∧
    (process_text M S text sc).summary =
      summarize_text S (remove_emojis_and_special_chars M text) sc ∧
    (process_text M S text sc).character_count_original = text.length ∧
    (process_text M S text sc).character_count_cleaned =
      (remove_emojis_and_special_chars M text).length ∧
    (process_text M S text sc).character_count_summary =
      (summarize_text S (remove_emojis_and_special_chars M text) sc).length :=
  ⟨rfl, rfl, rfl, rfl, rfl, rfl⟩

/-! ## C7: `total_items` invariant -/

lemma total_items_eq_core (M : CharModel) (S : SummarizerModel)
    (input sc : JVal) (r : BatchResult)
    (h : process_json_data_core M S input sc = .ok r) :
    r.total_items = r.processed_items.length := by
  unfold process_json_data_core at h
  split at h
  · rename_i xs
    cases hp : processListHandler M S sc 0 xs <;> rw [hp] at h <;>
      simp only [Except.map] at h
    · exact absurd h (by simp)
    · rename_i rs
      injection h with h
      subst h
      rfl
  · split at h
    · injection h with h
      subst h
      rfl
    · exact absurd h (by simp)
    · exact absurd h (by simp)
  · exact absurd h (by simp)

lemma total_items_eq_file (M : CharModel) (S : SummarizerModel)
    (input : JVal) (r : BatchResult)
    (h : process_json_file M S input = .ok r) :
    r.total_items = r.processed_items.length := by
  unfold process_json_file at h
  split at h
  · rename_i xs
    cases hp : processListFile M S [] xs <;> rw [hp] at h <;>
      simp only [Except.map] at h
    · exact absurd h (by simp)
    · rename_i rs
      injection h with h
      subst h
      rfl
  · split at h
    · injection h with h
      subst h
      rfl
    · exact absurd h (by simp)
    · exact absurd h (by simp)
  · exact absurd h (by simp)

/-- C7: every `BatchResult` actually produced by batch processing — by the
`/process-json` handler body as well as by `process_json_file` — satisfies
`total_items = length processed_items`. -/
theorem C7_total_items (M : CharModel) (S : SummarizerModel)
    (input sc input2 : JVal) (r r2 : BatchResult)
    (h : process_json_data_core M S input sc = .ok r)
    (h2 : process_json_file M S input2 = .ok r2) :
    r.total_items = r.processed_items.length ∧
      r2.total_items = r2.processed_items.length :=
  ⟨total_items_eq_core M S input sc r h, total_items_eq_file M S input2 r2 h2⟩

theorem C7_total_items_witness :
    (process_json_data_core asciiModel failSumm
        (.arr [.obj [("description", .str "hi")]]) (.num 3)).isOk = true ∧
    (process_json_file asciiModel failSumm (.obj [("description", .str "hi")])).isOk = true ∧
    ((1 : Nat) = 1 ∧ (1 : Nat) = 1) := by
  refine ⟨rfl, rfl, ?_⟩
  exact C7_total_items asciiModel failSumm
    (.arr [.obj [("description", .str "hi")]]) (.num 3)
    (.obj [("description", .str "hi")]) _ _ rfl rfl

/-! ## C10: the empty list is accepted -/

/-- C10: the empty list passes batch validation on both paths: the
`/process-json` handler body and `process_json_file` both succeed on `[]`
with no processed items and `total_items = 0`; through the full route
(request `{"data": []}`) the handler likewise returns the success
envelope with the default `sentences_count` of 3. -/
theorem C10_empty_list (M : CharModel) (S : SummarizerModel) (sc : JVal) :
    process_json_data_core M S (.arr []) sc =
      .ok { processed_items := [], total_items := 0, processing_info := handlerInfo sc } ∧
    process_json_file M S (.arr []) =
      .ok { processed_items := [], total_items := 0, processing_info := fileInfo } ∧
    process_json_data M S (.obj [("data", .arr [])]) =
      .success { processed_items := [], total_items := 0,
                 processing_info := handlerInfo (.num 3) } :=
  ⟨rfl, rfl, rfl⟩

/-! ## C1: batch id assignment -/

/-- An element the batch loops can fully process: a dict whose
`description` value, when present, is a string. -/
def goodItem : JVal → Bool
  | .obj fs =>
    match lookupField fs "description" with
    | some (.str _) => true
    | some _ => false
    | none => true
  | _ => false

def goodItems (xs : List JVal) : Bool := xs.all goodItem

/-- The records the handler loop produces, with the id rule spelled out:
the supplied id when present, else the 0-based position `i` plus 1;
skipped elements still advance the position. -/
def specItemsHandler (M : CharModel) (S : SummarizerModel) (sc : JVal) :
    Nat → List JVal → List BatchItem
  | _, [] => []
  | i, item :: rest =>
    match item with
    | .obj fs =>
      match lookupField fs "description" with
      | some (.str d) =>
        { item := process_text M S d sc
          id := (lookupField fs "id").getD (.num ((i : Int) + 1))
          original_id := some ((lookupField fs "id").getD .null) } ::
          specItemsHandler M S sc (i + 1) rest
      | _ => specItemsHandler M S sc (i + 1) rest
    | _ => specItemsHandler M S sc (i + 1) rest

/-- The records the file loop produces, with the id rule spelled out:
the supplied id when present, else the count of previously accepted
elements plus 1; skipped elements do not advance the count. -/
def specItemsFile (M : CharModel) (S : SummarizerModel) :
    Nat → List JVal → List BatchItem
  | _, [] => []
  | cnt, item :: rest =>
    match item with
    | .obj fs =>
      match lookupField fs "description" with
      | some (.str d) =>
        { item := process_text M S d (.num 3)
          id := (lookupField fs "id").getD (.num ((cnt : Int) + 1))
          original_id := none } :: specItemsFile M S (cnt + 1) rest
      | _ => specItemsFile M S cnt rest
    | _ => specItemsFile M S cnt rest

lemma processListHandler_good (M : CharModel) (S : SummarizerModel) (sc : JVal) :
    ∀ (xs : List JVal) (i : Nat), goodItems xs = true →
      processListHandler M S sc i xs = .ok (specItemsHandler M S sc i xs) := by
  intro xs
  induction xs with
  | nil => intro i _; rfl
  | cons item rest ih =>
    intro i h
    rw [goodItems, List.all_cons, Bool.and_eq_true] at h
    obtain ⟨h1, h2⟩ := h
    cases item with
    | obj fs =>
      cases hd : lookupField fs "description" with
      | none => simp [processListHandler, specItemsHandler, hd, ih (i + 1) h2]
      | some v =>
        cases v with
        | str d =>
          simp [processListHandler, specItemsHandler, hd, ih (i + 1) h2, Except.map]
        | null => simp [goodItem, hd] at h1
        | bool b => simp [goodItem, hd] at h1
        | num n => simp [goodItem, hd] at h1
        | arr a => simp [goodItem, hd] at h1
        | obj o => simp [goodItem, hd] at h1
    | null => simp [goodItem] at h1
    | bool b => simp [goodItem] at h1
    | num n => simp [goodItem] at h1
    | str s => simp [goodItem] at h1
    | arr a => simp [goodItem] at h1

lemma processListFile_good (M : CharModel) (S : SummarizerModel) :
    ∀ (xs : List JVal) (acc : List BatchItem), goodItems xs = true →
      processListFile M S acc xs = .ok (acc ++ specItemsFile M S acc.length xs) := by
  intro xs
  induction xs with
  | nil => intro acc _; simp [processListFile, specItemsFile]
  | cons item rest ih =>
    intro acc h
    rw [goodItems, List.all_cons, Bool.and_eq_true] at h
    obtain ⟨h1, h2⟩ := h
    cases item with
    | obj fs =>
      cases hd : lookupField fs "description" with
      | none => simp [processListFile, specItemsFile, hd, ih acc h2]
      | some v =>
        cases v with
        | str d =>
          rw [show processListFile M S acc (JVal.obj fs :: rest) =
                processListFile M S
                  (acc ++ [{ item := process_text M S d (.num 3)
                             id := (lookupField fs "id").getD
                               (.num ((acc.length : Int) + 1))
                             original_id := none }]) rest from by
              simp [processListFile, hd]]
          rw [ih _ h2]
          simp [specItemsFile, hd, List.append_assoc]
        | null => simp [goodItem, hd] at h1
        | bool b => simp [goodItem, hd] at h1
        | num n => simp [goodItem, hd] at h1
        | arr a => simp [goodItem, hd] at h1
        | obj o => simp [goodItem, hd] at h1
    | null => simp [goodItem] at h1
    | bool b => simp [goodItem] at h1
    | num n => simp [goodItem] at h1
    | str s => simp [goodItem] at h1
    | arr a => simp [goodItem] at h1

/-- C1 counterexample: on the list `[{}, {"description": "b"}]` the file
path `process_json_file` assigns the accepted element (at 0-based
position 1) the id 1 — `len(results) + 1` with no accepted predecessors —
not the positional fallback 2 that the claim requires of both paths. -/
theorem C1_counterexample :
    process_json_file asciiModel failSumm
        (.arr [.obj [], .obj [("description", .str "b")]]) =
      .ok { processed_items :=
              [{ item := { original_text := "b", cleaned_text := "b", summary := "b",
                           character_count_original := 1, character_count_cleaned := 1,
                           character_count_summary := 1 }
                 id := .num 1
                 original_id := none }]
            total_items := 1
            processing_info := fileInfo } ∧
    (JVal.num 1 = JVal.num 2 → False) :=
  ⟨rfl, by intro h; injection h with h1; exact absurd h1 (by decide)⟩

/-- C1 (amended): on a list of processable elements, the handler path
assigns each accepted element the supplied id, else position + 1
(skipped elements still shift the fallback), while the file path assigns
the supplied id, else the count of previously accepted elements + 1
(skipped elements do not shift the fallback). -/
theorem C1_batch_ids (M : CharModel) (S : SummarizerModel) (sc : JVal)
    (xs : List JVal) (h : goodItems xs = true) :
    process_json_data_core M S (.arr xs) sc =
      .ok { processed_items := specItemsHandler M S sc 0 xs
            total_items := (specItemsHandler M S sc 0 xs).length
            processing_info := handlerInfo sc } ∧
    process_json_file M S (.arr xs) =
      .ok { processed_items := specItemsFile M S 0 xs
            total_items := (specItemsFile M S 0 xs).length
            processing_info := fileInfo } := by
  constructor
  · simp only [process_json_data_core]
    rw [processListHandler_good M S sc xs 0 h]
    rfl
  · simp only [process_json_file]
    rw [processListFile_good M S xs [] h]
    rfl

theorem C1_batch_ids_witness :
    goodItems [.obj [("description", .str "a")],
               .obj [("description", .str "b"), ("id", .str "x")],
               .obj []] = true ∧
    process_json_data_core asciiModel failSumm
        (.arr [.obj [("description", .str "a")],
               .obj [("description", .str "b"), ("id", .str "x")],
               .obj []]) (.num 3) =
      .ok { processed_items :=
              specItemsHandler asciiModel failSumm (.num 3) 0
                [.obj [("description", .str "a")],
                 .obj [("description", .str "b"), ("id", .str "x")],
                 .obj []]
            total_items :=
              (specItemsHandler asciiModel failSumm (.num 3) 0
                [.obj [("description", .str "a")],
                 .obj [("description", .str "b"), ("id", .str "x")],
                 .obj []]).length
            processing_info := handlerInfo (.num 3) } ∧
    process_json_file asciiModel failSumm
        (.arr [.obj [("description", .str "a")],
               .obj [("description", .str "b"), ("id", .str "x")],
               .obj []]) =
      .ok { processed_items :=
              specItemsFile asciiModel failSumm 0
                [.obj [("description", .str "a")],
                 .obj [("description", .str "b"), ("id", .str "x")],
                 .obj []]
            total_items :=
              (specItemsFile asciiModel failSumm 0
                [.obj [("description", .str "a")],
                 .obj [("description", .str "b"), ("id", .str "x")],
                 .obj []]).length
            processing_info := fileInfo } := by
  refine ⟨rfl, ?_⟩
  exact C1_batch_ids asciiModel failSumm (.num 3) _ rfl

/-! ## C5: when batch validation fails -/

def isList : JVal → Bool
  | .arr _ => true
  | _ => false

def isDictWithDesc : JVal → Bool
  | .obj fs => (lookupField fs "description").isSome
  | _ => false

/-- Spec-side predicate, following the claim's words: the input is an
object containing a `description` field, or a sequence of such objects. -/
def specBatchShapeOk : JVal → Bool
  | .obj fs => (lookupField fs "description").isSome
  | .arr xs =>
    xs.all fun x =>
      match x with
      | .obj fs => (lookupField fs "description").isSome
      | _ => false
  | _ => false

/-- The outcome is the explicit validation failure (the 400 response with
the description-field message, resp. the raised `ValueError`). -/
def isValidationE : Except PErr α → Bool
  | .error .validation => true
  | _ => false

lemma processListHandler_no_validation (M : CharModel) (S : SummarizerModel) (sc : JVal) :
    ∀ (xs : List JVal) (i : Nat),
      isValidationE (processListHandler M S sc i xs) = false := by
  intro xs
  induction xs with
  | nil => intro i; rfl
  | cons item rest ih =>
    intro i
    cases item with
    | obj fs =>
      cases hd : lookupField fs "description" with
      | none => simpa [processListHandler, hd] using ih (i + 1)
      | some v =>
        cases v with
        | str d =>
          have h := ih (i + 1)
          cases hp : processListHandler M S sc (i + 1) rest with
          | ok rs => simp [processListHandler, hd, hp, Except.map, isValidationE]
          | error e =>
            rw [hp] at h
            cases e with
            | validation => simp [isValidationE] at h
            | internal => simp [processListHandler, hd, hp, Except.map, isValidationE]
        | null => simp [processListHandler, hd, isValidationE]
        | bool b => simp [processListHandler, hd, isValidationE]
        | num n => simp [processListHandler, hd, isValidationE]
        | arr a => simp [processListHandler, hd, isValidationE]
        | obj o => simp [processListHandler, hd, isValidationE]
    | null => simp [processListHandler, pyContainsKey, isValidationE]
    | bool b => simp [processListHandler, pyContainsKey, isValidationE]
    | num n => simp [processListHandler, pyContainsKey, isValidationE]
    | str s =>
      cases hb : listInfixOf "description".data s.data with
      | true => simp [processListHandler, pyContainsKey, hb, isValidationE]
      | false => simpa [processListHandler, pyContainsKey, hb] using ih (i + 1)
    | arr a =>
      cases hb : a.any (fun x => match x with | .str t => t = "description" | _ => false) with
      | true => simp [processListHandler, pyContainsKey, hb, isValidationE]
      | false => simpa [processListHandler, pyContainsKey, hb] using ih (i + 1)

lemma processListFile_no_validation (M : CharModel) (S : SummarizerModel) :
    ∀ (xs : List JVal) (acc : List BatchItem),
      isValidationE (processListFile M S acc xs) = false := by
  intro xs
  induction xs with
  | nil => intro acc; rfl
  | cons item rest ih =>
    intro acc
    cases item with
    | obj fs =>
      cases hd : lookupField fs "description" with
      | none => simpa [processListFile, hd] using ih acc
      | some v =>
        cases v with
        | str d => simpa [processListFile, hd] using ih _
        | null => simp [processListFile, hd, isValidationE]
        | bool b => simp [processListFile, hd, isValidationE]
        | num n => simp [processListFile, hd, isValidationE]
        | arr a => simp [processListFile, hd, isValidationE]
        | obj o => simp [processListFile, hd, isValidationE]
    | null => simp [processListFile, pyContainsKey, isValidationE]
    | bool b => simp [processListFile, pyContainsKey, isValidationE]
    | num n => simp [processListFile, pyContainsKey, isValidationE]
    | str s =>
      cases hb : listInfixOf "description".data s.data with
      | true => simp [processListFile, pyContainsKey, hb, isValidationE]
      | false => simpa [processListFile, pyContainsKey, hb] using ih acc
    | arr a =>
      cases hb : a.any (fun x => match x with | .str t => t = "description" | _ => false) with
      | true => simp [processListFile, pyContainsKey, hb, isValidationE]
      | false => simpa [processListFile, pyContainsKey, hb] using ih acc

/-- C5 counterexample: `[{}]` is not a sequence of objects containing
`description` — the claim demands a validation failure — yet both batch
paths succeed, producing an empty result instead of failing. -/
theorem C5_counterexample :
    specBatchShapeOk (.arr [.obj []]) = false ∧
    process_json_data_core asciiModel failSumm (.arr [.obj []]) (.num 3) =
      .ok { processed_items := [], total_items := 0,
            processing_info := handlerInfo (.num 3) } ∧
    process_json_file asciiModel failSumm (.arr [.obj []]) =
      .ok { processed_items := [], total_items := 0, processing_info := fileInfo } :=
  ⟨rfl, rfl, rfl⟩

/-- C5 (amended): batch processing fails with the validation error
(the 400 with the description-field message, resp. the `ValueError`) if
and only if the input is neither a list nor a dict containing a
`description` field; a list never triggers the validation error, whatever
its elements. -/
theorem C5_validation_iff (M : CharModel) (S : SummarizerModel) (sc input : JVal) :
    isValidationE (process_json_data_core M S input sc) =
      (!isList input && !isDictWithDesc input) ∧
    isValidationE (process_json_file M S input) =
      (!isList input && !isDictWithDesc input) := by
  constructor
  · cases input with
    | arr xs =>
      have h := processListHandler_no_validation M S sc xs 0
      cases hp : processListHandler M S sc 0 xs with
      | ok rs =>
        simp [process_json_data_core, hp, Except.map, isValidationE, isList, isDictWithDesc]
      | error e =>
        rw [hp] at h
        cases e with
        | validation => simp [isValidationE] at h
        | internal =>
          simp [process_json_data_core, hp, Except.map, isValidationE, isList, isDictWithDesc]
    | obj fs =>
      cases hd : lookupField fs "description" with
      | none => simp [process_json_data_core, hd, isValidationE, isList, isDictWithDesc]
      | some v =>
        cases v <;> simp [process_json_data_core, hd, isValidationE, isList, isDictWithDesc]
    | null => simp [process_json_data_core, isValidationE, isList, isDictWithDesc]
    | bool b => simp [process_json_data_core, isValidationE, isList, isDictWithDesc]
    | num n => simp [process_json_data_core, isValidationE, isList, isDictWithDesc]
    | str s => simp [process_json_data_core, isValidationE, isList, isDictWithDesc]
  · cases input with
    | arr xs =>
      have h := processListFile_no_validation M S xs []
      cases hp : processListFile M S [] xs with
      | ok rs =>
        simp [process_json_file, hp, Except.map, isValidationE, isList, isDictWithDesc]
      | error e =>
        rw [hp] at h
        cases e with
        | validation => simp [isValidationE] at h
        | internal =>
          simp [process_json_file, hp, Except.map, isValidationE, isList, isDictWithDesc]
    | obj fs =>
      cases hd : lookupField fs "description" with
      | none => simp [process_json_file, hd, isValidationE, isList, isDictWithDesc]
      | some v =>
        cases v <;> simp [process_json_file, hd, isValidationE, isList, isDictWithDesc]
    | null => simp [process_json_file, isValidationE, isList, isDictWithDesc]
    | bool b => simp [process_json_file, isValidationE, isList, isDictWithDesc]
    | num n => simp [process_json_file, isValidationE, isList, isDictWithDesc]
    | str s => simp [process_json_file, isValidationE, isList, isDictWithDesc]

/-! ## C2: `sentences_count` handling in the batch path -/

lemma processing_info_eq_core (M : CharModel) (S : SummarizerModel)
    (input sc : JVal) (r : BatchResult)
    (h : process_json_data_core M S input sc = .ok r) :
    r.processing_info = handlerInfo sc := by
  unfold process_json_data_core at h
  split at h
  · rename_i xs
    cases hp : processListHandler M S sc 0 xs <;> rw [hp] at h <;>
      simp only [Except.map] at h
    · exact absurd h (by simp)
    · injection h with h
      subst h
      rfl
  · split at h
    · injection h with h
      subst h
      rfl
    · exact absurd h (by simp)
    · exact absurd h (by simp)
  · exact absurd h (by simp)

/-- C2 counterexample: a batch request with `sentences_count: 0` — an
invalid count the claim says is silently replaced by 3 — succeeds with
`processing_info.sentences_count` equal to 0, not 3: the `/process-json`
handler performs no coercion. -/
theorem C2_counterexample :
    process_json_data asciiModel failSumm
        (.obj [("data", .arr [.obj [("description", .str "hello")]]),
               ("sentences_count", .num 0)]) =
      .success { processed_items :=
                   [{ item := { original_text := "hello", cleaned_text := "hello",
                                summary := "hello", character_count_original := 5,
                                character_count_cleaned := 5,
                                character_count_summary := 5 }
                      id := .num 1
                      original_id := some .null }]
                 total_items := 1
                 processing_info := handlerInfo (.num 0) } ∧
    ((handlerInfo (.num 0)).sentences_count = some (.num 3) → False) := by
  refine ⟨rfl, ?_⟩
  intro h
  rw [show (handlerInfo (.num 0)).sentences_count = some (.num 0) from rfl] at h
  injection h with h1
  injection h1 with h2
  exact absurd h2 (by decide)

/-- C2 (amended): in the `/process-json` handler, `sentences_count`
defaults to 3 only when the field is absent from the request; a present
value — valid or not — is passed to the batch body unvalidated, and the
resulting `processing_info.sentences_count` equals exactly the value so
passed.  (The integer/positivity coercion of the claim exists only in the
`/process-text` handler, `coerce_sentences_count`.) -/
theorem C2_sentences_count_passthrough (M : CharModel) (S : SummarizerModel)
    (fs : List (String × JVal)) (input sc : JVal) (r : BatchResult)
    (h1 : (lookupField fs "data").isSome = true)
    (h2 : process_json_data_core M S input sc = .ok r) :
    process_json_data M S (.obj fs) =
      exceptToResp (process_json_data_core M S
        ((lookupField fs "data").getD .null)
        ((lookupField fs "sentences_count").getD (.num 3))) ∧
    r.processing_info.sentences_count = some sc := by
  constructor
  · cases fs with
    | nil => simp [lookupField] at h1
    | cons kv rest =>
      simp [process_json_data, truthy, h1]
  · rw [processing_info_eq_core M S input sc r h2]
    rfl

theorem C2_sentences_count_passthrough_witness :
    (lookupField [("data", JVal.arr []), ("sentences_count", JVal.num 0)]
        "data").isSome = true ∧
    process_json_data_core asciiModel failSumm (.arr []) (.num 0) =
      .ok { processed_items := [], total_items := 0,
            processing_info := handlerInfo (.num 0) } ∧
    (process_json_data asciiModel failSumm
        (.obj [("data", .arr []), ("sentences_count", .num 0)]) =
      exceptToResp (process_json_data_core asciiModel failSumm
        ((lookupField [("data", JVal.arr []), ("sentences_count", JVal.num 0)]
            "data").getD .null)
        ((lookupField [("data", JVal.arr []), ("sentences_count", JVal.num 0)]
            "sentences_count").getD (.num 3))) ∧
      (BatchResult.mk [] 0 (handlerInfo (.num 0))).processing_info.sentences_count =
        some (.num 0)) := by
  refine ⟨rfl, rfl, ?_⟩
  exact C2_sentences_count_passthrough asciiModel failSumm
    [("data", JVal.arr []), ("sentences_count", JVal.num 0)]
    (.arr []) (.num 0) (BatchResult.mk [] 0 (handlerInfo (.num 0))) rfl rfl

/-! ## Sanitizer shape lemmas (towards C4, C8, C9) -/

/-- No two adjacent characters are both whitespace. -/
def noAdjSpaceB (M : CharModel) : List Char → Bool
  | a :: b :: t => (!(M.isSpace a && M.isSpace b)) && noAdjSpaceB M (b :: t)
  | _ => true

/-- The first character, when there is one, is not whitespace. -/
def headNotSpaceB (M : CharModel) : List Char → Bool
  | [] => true
  | c :: _ => !M.isSpace c

lemma noAdjSpaceB_tail (M : CharModel) {a : Char} {l : List Char}
    (h : noAdjSpaceB M (a :: l) = true) : noAdjSpaceB M l = true := by
  cases l with
  | nil => rfl
  | cons d t =>
    rw [noAdjSpaceB, Bool.and_eq_true] at h
    exact h.2

lemma mem_collapseAux (M : CharModel) :
    ∀ (b : Bool) (l : List Char) (c : Char), c ∈ collapseAux M b l →
      c = ' ' ∨ (c ∈ l ∧ M.isSpace c = false) := by
  intro b l
  induction l generalizing b with
  | nil => intro c h; simp [collapseAux] at h
  | cons a t ih =>
    intro c h
    by_cases ha : M.isSpace a = true
    · cases b with
      | true =>
        simp only [collapseAux, ha, if_true] at h
        rcases ih true c h with h' | ⟨ht, hs⟩
        · exact Or.inl h'
        · exact Or.inr ⟨List.mem_cons_of_mem a ht, hs⟩
      | false =>
        simp only [collapseAux, ha, if_true] at h
        rcases List.mem_cons.mp h with h' | h'
        · exact Or.inl h'
        · rcases ih true c h' with h'' | ⟨ht, hs⟩
          · exact Or.inl h''
          · exact Or.inr ⟨List.mem_cons_of_mem a ht, hs⟩
    · rw [Bool.not_eq_true] at ha
      simp only [collapseAux, ha, Bool.false_eq_true, if_false] at h
      rcases List.mem_cons.mp h with h' | h'
      · exact Or.inr ⟨h' ▸ List.mem_cons_self a t, h' ▸ ha⟩
      · rcases ih false c h' with h'' | ⟨ht, hs⟩
        · exact Or.inl h''
        · exact Or.inr ⟨List.mem_cons_of_mem a ht, hs⟩

lemma headNotSpaceB_collapseAux (M : CharModel) :
    ∀ l, headNotSpaceB M (collapseAux M true l) = true := by
  intro l
  induction l with
  | nil => rfl
  | cons a t ih =>
    by_cases ha : M.isSpace a = true
    · simpa [collapseAux, ha] using ih
    · rw [Bool.not_eq_true] at ha
      simp [collapseAux, ha, headNotSpaceB]

lemma noAdjSpaceB_cons_of_head (M : CharModel) (x : Char) {l : List Char}
    (hh : headNotSpaceB M l = true) (hn : noAdjSpaceB M l = true) :
    noAdjSpaceB M (x :: l) = true := by
  cases l with
  | nil => rfl
  | cons d t =>
    have hd : M.isSpace d = false := by simpa [headNotSpaceB] using hh
    simp [noAdjSpaceB, hd, hn]

lemma noAdjSpaceB_cons_of_nonspace (M : CharModel) {x : Char}
    (hx : M.isSpace x = false) {l : List Char} (hn : noAdjSpaceB M l = true) :
    noAdjSpaceB M (x :: l) = true := by
  cases l with
  | nil => rfl
  | cons d t => simp [noAdjSpaceB, hx, hn]

lemma noAdjSpaceB_collapseAux (M : CharModel) :
    ∀ (b : Bool) (l : List Char), noAdjSpaceB M (collapseAux M b l) = true := by
  intro b l
  induction l generalizing b with
  | nil => rfl
  | cons a t ih =>
    by_cases ha : M.isSpace a = true
    · cases b with
      | true => simpa [collapseAux, ha] using ih true
      | false =>
        simp only [collapseAux, ha, if_true]
        exact noAdjSpaceB_cons_of_head M ' ' (headNotSpaceB_collapseAux M t) (ih true)
    · rw [Bool.not_eq_true] at ha
      simp only [collapseAux, ha, Bool.false_eq_true, if_false]
      exact noAdjSpaceB_cons_of_nonspace M ha (ih false)

lemma collapseAux_false_eq_self (M : CharModel) :
    ∀ l, noAdjSpaceB M l = true → (∀ c ∈ l, M.isSpace c = true → c = ' ') →
      collapseAux M false l = l := by
  intro l
  induction l with
  | nil => intro _ _; rfl
  | cons a t ih =>
    intro hadj hbl
    by_cases ha : M.isSpace a = true
    · have ha' : a = ' ' := hbl a (List.mem_cons_self a t) ha
      subst ha'
      cases t with
      | nil => simp [collapseAux, ha]
      | cons d t2 =>
        have hd : M.isSpace d = false := by
          rw [noAdjSpaceB, Bool.and_eq_true] at hadj
          have := hadj.1
          rw [ha] at this
          simpa using this
        have ht : collapseAux M false (d :: t2) = d :: t2 :=
          ih (noAdjSpaceB_tail M hadj)
            (fun c hc hs => hbl c (List.mem_cons_of_mem _ hc) hs)
        simp only [collapseAux, hd, Bool.false_eq_true, if_false,
          List.cons.injEq, true_and] at ht
        simp [collapseAux, ha, hd, ht]
    · rw [Bool.not_eq_true] at ha
      have ht := ih (noAdjSpaceB_tail M hadj)
        (fun c hc hs => hbl c (List.mem_cons_of_mem _ hc) hs)
      simp [collapseAux, ha, ht]

lemma head?_dropWhile_not (p : Char → Bool) :
    ∀ (l : List Char) (c : Char), (l.dropWhile p).head? = some c → p c = false := by
  intro l
  induction l with
  | nil => intro c h; simp [List.dropWhile] at h
  | cons a t ih =>
    intro c h
    by_cases hp : p a = true
    · rw [List.dropWhile_cons, if_pos hp] at h
      exact ih c h
    · rw [Bool.not_eq_true] at hp
      rw [List.dropWhile_cons, if_neg (by simp [hp]), List.head?_cons] at h
      injection h with h'
      subst h'
      exact hp

lemma mem_dropWhile (p : Char → Bool) {l : List Char} {c : Char}
    (h : c ∈ l.dropWhile p) : c ∈ l :=
  (List.dropWhile_suffix p).subset h

lemma noAdjSpaceB_dropWhile (M : CharModel) (p : Char → Bool) :
    ∀ l, noAdjSpaceB M l = true → noAdjSpaceB M (l.dropWhile p) = true := by
  intro l
  induction l with
  | nil => intro h; exact h
  | cons a t ih =>
    intro h
    by_cases hp : p a = true
    · rw [List.dropWhile_cons, if_pos hp]
      exact ih (noAdjSpaceB_tail M h)
    · rw [Bool.not_eq_true] at hp
      rw [List.dropWhile_cons, if_neg (by simp [hp])]
      exact h

lemma dropWhile_eq_self_of_headNot (M : CharModel) {l : List Char}
    (h : headNotSpaceB M l = true) : l.dropWhile M.isSpace = l := by
  cases l with
  | nil => rfl
  | cons a t =>
    have ha : M.isSpace a = false := by simpa [headNotSpaceB] using h
    rw [List.dropWhile_cons, if_neg (by simp [ha])]

lemma noAdjSpaceB_iff_chain (M : CharModel) :
    ∀ l, noAdjSpaceB M l = true ↔
      l.Chain' (fun a b => ¬(M.isSpace a = true ∧ M.isSpace b = true)) := by
  intro l
  induction l with
  | nil => simp [noAdjSpaceB]
  | cons a t ih =>
    cases t with
    | nil => simp [noAdjSpaceB]
    | cons b t2 =>
      rw [List.chain'_cons, ← ih, noAdjSpaceB, Bool.and_eq_true]
      constructor
      · rintro ⟨h1, h2⟩
        refine ⟨?_, h2⟩
        intro ⟨hx, hy⟩
        rw [hx, hy] at h1
        simp at h1
      · rintro ⟨h1, h2⟩
        refine ⟨?_, h2⟩
        cases hx : M.isSpace a <;> cases hy : M.isSpace b <;> simp
        exact h1 ⟨hx, hy⟩

lemma noAdjSpaceB_reverse (M : CharModel) {l : List Char}
    (h : noAdjSpaceB M l = true) : noAdjSpaceB M l.reverse = true := by
  rw [noAdjSpaceB_iff_chain] at h ⊢
  rw [List.chain'_reverse]
  exact h.imp fun a b hab hba => hab ⟨hba.2, hba.1⟩

lemma mem_stripChars (M : CharModel) {l : List Char} {c : Char}
    (h : c ∈ stripChars M l) : c ∈ l := by
  simp only [stripChars, List.mem_reverse] at h
  have h1 := mem_dropWhile M.isSpace h
  rw [List.mem_reverse] at h1
  exact mem_dropWhile M.isSpace h1

lemma noAdjSpaceB_stripChars (M : CharModel) {l : List Char}
    (h : noAdjSpaceB M l = true) : noAdjSpaceB M (stripChars M l) = true := by
  simp only [stripChars]
  exact noAdjSpaceB_reverse M
    (noAdjSpaceB_dropWhile M _ _ (noAdjSpaceB_reverse M (noAdjSpaceB_dropWhile M _ _ h)))

lemma headNotSpaceB_dropWhile_isSpace (M : CharModel) (l : List Char) :
    headNotSpaceB M (l.dropWhile M.isSpace) = true := by
  cases hh : l.dropWhile M.isSpace with
  | nil => rfl
  | cons c t =>
    have hc : M.isSpace c = false :=
      head?_dropWhile_not M.isSpace l c (by rw [hh]; rfl)
    simp [headNotSpaceB, hc]

lemma lastNotSpaceB_stripChars (M : CharModel) (l : List Char) :
    headNotSpaceB M (stripChars M l).reverse = true := by
  simp only [stripChars, List.reverse_reverse]
  exact headNotSpaceB_dropWhile_isSpace M _

lemma headNotSpaceB_stripChars (M : CharModel) (l : List Char) :
    headNotSpaceB M (stripChars M l) = true := by
  simp only [stripChars]
  cases hb : (l.dropWhile M.isSpace).reverse.dropWhile M.isSpace with
  | nil => rfl
  | cons c t =>
    have hsuf : (c :: t) <:+ (l.dropWhile M.isSpace).reverse :=
      hb ▸ List.dropWhile_suffix M.isSpace
    obtain ⟨pre, hpre⟩ := hsuf
    have hlast : (c :: t).getLast? = ((l.dropWhile M.isSpace).reverse).getLast? := by
      rw [← hpre]
      exact (List.getLast?_append_of_ne_nil pre (by simp)).symm
    have hrev : ((l.dropWhile M.isSpace).reverse).getLast? = (l.dropWhile M.isSpace).head? :=
      List.getLast?_reverse _
    have hh : ((c :: t).reverse).head? = (c :: t).getLast? := List.head?_reverse _
    cases hha : (l.dropWhile M.isSpace).head? with
    | none =>
      rw [hha] at hrev
      rw [hrev] at hlast
      simp [List.getLast?_eq_none_iff] at hlast
    | some d =>
      have hd : M.isSpace d = false := head?_dropWhile_not M.isSpace l d hha
      have hsome : ((c :: t).reverse).head? = some d := by
        rw [hh, hlast, hrev, hha]
      cases hrv : (c :: t).reverse with
      | nil => simp [hrv] at hsome
      | cons e r =>
        rw [hrv, List.head?_cons] at hsome
        injection hsome with he
        subst he
        simp [headNotSpaceB, hd]

lemma stripChars_eq_self (M : CharModel) {l : List Char}
    (hh : headNotSpaceB M l = true) (hl : headNotSpaceB M l.reverse = true) :
    stripChars M l = l := by
  simp only [stripChars]
  rw [dropWhile_eq_self_of_headNot M hh, dropWhile_eq_self_of_headNot M hl,
    List.reverse_reverse]

/-- A list of characters on which every sanitizer step is the identity:
all characters survive both filters, whitespace characters are exactly
single interior spaces, and the ends are not whitespace. -/
lemma sanitize_fixed (M : CharModel) (l : List Char)
    (h1 : M.isSym ' ' = false) (h2 : M.isSpace ' ' = true)
    (hmem : ∀ c ∈ l, c = ' ' ∨ (M.isSym c = false ∧ keptChar M c = true ∧ M.isSpace c = false))
    (hadj : noAdjSpaceB M l = true)
    (hhead : headNotSpaceB M l = true)
    (hlast : headNotSpaceB M l.reverse = true) :
    remove_emojis_and_special_chars M (String.mk l) = String.mk l := by
  have hf1 : l.filter (fun c => !M.isSym c) = l := by
    rw [List.filter_eq_self]
    intro c hc
    rcases hmem c hc with rfl | ⟨hs, _, _⟩
    · simp [h1]
    · simp [hs]
  have hf2 : l.filter (keptChar M) = l := by
    rw [List.filter_eq_self]
    intro c hc
    rcases hmem c hc with rfl | ⟨_, hk, _⟩
    · simp [keptChar, h2]
    · exact hk
  have hco : collapseAux M false l = l := by
    apply collapseAux_false_eq_self M l hadj
    intro c hc hs
    rcases hmem c hc with rfl | ⟨_, _, hns⟩
    · rfl
    · rw [hs] at hns
      cases hns
  have hst : stripChars M l = l := stripChars_eq_self M hhead hlast
  show String.mk (stripChars M (collapseAux M false
      ((l.filter fun c => !M.isSym c).filter (keptChar M)))) = String.mk l
  rw [hf1, hf2, hco, hst]

/-! ## C4: idempotence of the sanitizer -/

/-- C4: the sanitizer is idempotent,
`sanitize (sanitize x) = sanitize x` for every string `x`, for any
character classification in which the space character is whitespace and
not a symbol (as under `unicodedata` and the Python regex classes). -/
theorem C4_sanitize_idempotent (M : CharModel)
    (h1 : M.isSym ' ' = false) (h2 : M.isSpace ' ' = true) (x : String) :
    remove_emojis_and_special_chars M (remove_emojis_and_special_chars M x) =
      remove_emojis_and_special_chars M x := by
  have hx : remove_emojis_and_special_chars M x =
      String.mk (stripChars M (collapseAux M false
        ((x.data.filter fun c => !M.isSym c).filter (keptChar M)))) := rfl
  rw [hx]
  apply sanitize_fixed M _ h1 h2
  · intro c hc
    have hcw := mem_stripChars M hc
    rcases mem_collapseAux M false _ c hcw with rfl | ⟨hcl, hns⟩
    · exact Or.inl rfl
    · right
      have hm2 := List.mem_filter.mp hcl
      have hm1 := List.mem_filter.mp hm2.1
      exact ⟨by simpa using hm1.2, hm2.2, hns⟩
  · exact noAdjSpaceB_stripChars M (noAdjSpaceB_collapseAux M false _)
  · exact headNotSpaceB_stripChars M _
  · exact lastNotSpaceB_stripChars M _

theorem C4_sanitize_idempotent_witness :
    asciiModel.isSym ' ' = false ∧ asciiModel.isSpace ' ' = true ∧
    remove_emojis_and_special_chars asciiModel
        (remove_emojis_and_special_chars asciiModel "  Hi   there!  ") =
      remove_emojis_and_special_chars asciiModel "  Hi   there!  " :=
  ⟨rfl, rfl, C4_sanitize_idempotent asciiModel rfl rfl "  Hi   there!  "⟩

/-! ## C8: symbol-only strings sanitize to the empty string -/

/-- C8: a string all of whose characters are in the Unicode symbol
categories So/Sm/Sk/Sc (the characters `isSym` holds of) sanitizes to
the empty string. -/
theorem C8_symbols_vanish (M : CharModel) (s : String)
    (h : ∀ c ∈ s.data, M.isSym c = true) :
    remove_emojis_and_special_chars M s = "" := by
  have hf : s.data.filter (fun c => !M.isSym c) = [] := by
    rw [List.filter_eq_nil_iff]
    intro c hc
    simp [h c hc]
  show String.mk (stripChars M (collapseAux M false
      ((s.data.filter fun c => !M.isSym c).filter (keptChar M)))) = ""
  rw [hf]
  rfl

theorem C8_symbols_vanish_witness :
    (∀ c ∈ ("+<=>" : String).data, asciiModel.isSym c = true) ∧
    remove_emojis_and_special_chars asciiModel "+<=>" = "" :=
  ⟨by decide, C8_symbols_vanish asciiModel "+<=>" (by decide)⟩

/-! ## C9: already-clean strings are fixed points -/

/-- A character allowed in an already-clean string: a space, or a
non-symbol non-whitespace character that is a word character or basic
punctuation. -/
def cleanChar (M : CharModel) (c : Char) : Bool :=
  if c = ' ' then true
  else (M.isWord c || basicPunct.contains c) && !M.isSpace c && !M.isSym c

/-- An already-clean string in the sense of the claim: only word
characters, basic punctuation and single interior spaces, with no
leading or trailing whitespace. -/
def isCleanString (M : CharModel) (s : String) : Bool :=
  s.data.all (cleanChar M) && noAdjSpaceB M s.data &&
    headNotSpaceB M s.data && headNotSpaceB M s.data.reverse

/-- C9: an already-clean string — only word characters, single internal
spaces and the basic punctuation marks, with no leading or trailing
whitespace — is a fixed point of the sanitizer. -/
theorem C9_clean_fixed_point (M : CharModel) (s : String)
    (h1 : M.isSym ' ' = false) (h2 : M.isSpace ' ' = true)
    (hc : isCleanString M s = true) :
    remove_emojis_and_special_chars M s = s := by
  rw [isCleanString, Bool.and_eq_true, Bool.and_eq_true, Bool.and_eq_true] at hc
  obtain ⟨⟨⟨hall, hadj⟩, hhead⟩, hlast⟩ := hc
  have hmem : ∀ c ∈ s.data,
      c = ' ' ∨ (M.isSym c = false ∧ keptChar M c = true ∧ M.isSpace c = false) := by
    intro c hcmem
    have hcc := List.all_eq_true.mp hall c hcmem
    by_cases hsp : c = ' '
    · exact Or.inl hsp
    · right
      rw [cleanChar, if_neg hsp] at hcc
      rw [Bool.and_eq_true, Bool.and_eq_true] at hcc
      obtain ⟨⟨hw, hns⟩, hnsym⟩ := hcc
      refine ⟨by simpa using hnsym, ?_, by simpa using hns⟩
      rw [keptChar]
      rw [Bool.or_eq_true] at hw
      rcases hw with h' | h'
      · simp [h']
      · rw [h']
        simp
  exact sanitize_fixed M s.data h1 h2 hmem hadj hhead hlast

theorem C9_clean_fixed_point_witness :
    asciiModel.isSym ' ' = false ∧ asciiModel.isSpace ' ' = true ∧
    isCleanString asciiModel "Hello, world! Is this ok?" = true ∧
    remove_emojis_and_special_chars asciiModel "Hello, world! Is this ok?" =
      "Hello, world! Is this ok?" :=
  ⟨rfl, rfl, rfl,
    C9_clean_fixed_point asciiModel "Hello, world! Is this ok?" rfl rfl rfl⟩
